import Mathlib

/-!
Shallow embedding of the Soroban contract in
`src/contracts/santa_whishlist/src/lib.rs` (the `SeasonalWishlist` contract).

Modelling conventions:
* `Address` is an abstract identity, modelled as `Nat`.
* Soroban `String` is Lean `String`; `u32`/`u64` are `Nat` (the `u32`
  counter increment aborts on overflow, matching checked arithmetic).
* Instance storage (the configuration singletons `Admin`,
  `ChristmasDeadline`, `NaughtyList`) is a record of `Option`s: `none`
  means the key is absent, as before `__constructor` has run.
* Persistent storage is a pair of maps `Address → Option _` for the
  `Wishes(a)` and `NextId(a)` keys.
* `require_auth` is modelled by an environment carrying the set of
  addresses that authorized the invocation; a failed `require_auth`, a
  `panic_with_error`, and a failed `.expect("Santa missing")` all abort
  the invocation, modelled by `Except.error`.  An aborted invocation
  rolls back: `applyOp` keeps the pre-state, persists nothing and emits
  no event.
* Each successful invocation also reports the list of storage entries it
  read or wrote (`accesses`) and the list of TTL extensions it issued
  (`bumps`), in source order, so that the TTL-renewal discipline can be
  stated.
-/

abbrev Address := Nat

/-- `DataKey` from the source: the storage key space of the contract. -/
inductive DataKey where
  | Wishes (a : Address)
  | NextId (a : Address)
  | ChristmasDeadline
  | Admin
  | NaughtyList
deriving DecidableEq, Repr

/-- A storage entry whose TTL can be extended: a persistent entry keyed by
`DataKey`, or the contract-instance storage as a whole. -/
inductive TtlKey where
  | persistent (k : DataKey)
  | inst
deriving DecidableEq, Repr

/-- `Wish` from the source. -/
structure Wish where
  id : Nat
  text : String
  created_at_ledger : Nat
  fulfilled : Bool
deriving DecidableEq, Repr

/-- `ContractError` from the source. -/
inductive ContractError where
  | WishNotFound
  | TooLateToChange
  | YouAreNaughty
deriving DecidableEq, Repr

/-- The ways an invocation aborts: a `panic_with_error` with a
`ContractError`, a failed `require_auth`, the `.expect("Santa missing")`
panic when the `Admin` key is absent, or a `u32` arithmetic overflow. -/
inductive Abort where
  | contractErr (e : ContractError)
  | authFailure (a : Address)
  | missingAdmin
  | overflow
deriving DecidableEq, Repr

/-- The two `#[contractevent]` payloads of the source. -/
inductive Event where
  | wishAdded (user : Address) (add : Nat)
  | wishFulfilled (user : Address) (wish_id : Nat)
deriving DecidableEq, Repr

/-- Contract-instance storage: the three configuration singletons, each
possibly absent. -/
structure InstanceStorage where
  admin : Option Address
  christmasDeadline : Option Nat
  naughtyList : Option (List Address)
deriving DecidableEq, Repr

/-- The whole storage state of the contract. -/
structure ContractState where
  inst : InstanceStorage
  wishes : Address → Option (List Wish)
  nextId : Address → Option Nat

/-- Host environment of one invocation: ledger timestamp, ledger
sequence number, and the set of addresses whose `require_auth` succeeds. -/
structure Env where
  timestamp : Nat
  sequence : Nat
  authorized : List Address

/-- Result of a successful invocation: post-state, return value, events
emitted, TTL bumps issued, and storage entries read or written. -/
structure OpResult (α : Type) where
  state : ContractState
  ret : α
  events : List Event
  bumps : List TtlKey
  accesses : List TtlKey

/-- Point update of a storage map. -/
def setFun {α : Type} (f : Address → Option α) (a : Address) (v : α) :
    Address → Option α :=
  fun b => if b = a then some v else f b

/-- The fallback deadline hard-coded in `ensure_not_christmas`
(`unwrap_or(1_766_620_800)`). -/
def FALLBACK_DEADLINE : Nat := 1766620800

/-- `2 ^ 32`: bound of the `u32` counter. -/
def U32_LIMIT : Nat := 4294967296

/-- `ensure_not_christmas`: abort with `TooLateToChange` when the ledger
timestamp is at or past the stored deadline (fallback if unset). -/
def ensure_not_christmas (s : ContractState) (e : Env) : Except Abort Unit :=
  let christmas_deadline := (s.inst.christmasDeadline).getD FALLBACK_DEADLINE
  if christmas_deadline ≤ e.timestamp then
    .error (.contractErr .TooLateToChange)
  else
    .ok ()

/-- `check_naughty_list`: abort with `YouAreNaughty` when the user is on
the stored denylist (empty if unset). -/
def check_naughty_list (s : ContractState) (user : Address) : Except Abort Unit :=
  let naughty_list := (s.inst.naughtyList).getD []
  if user ∈ naughty_list then
    .error (.contractErr .YouAreNaughty)
  else
    .ok ()

/-- `Address::require_auth`: abort unless the address authorized this
invocation. -/
def require_auth (e : Env) (a : Address) : Except Abort Unit :=
  if a ∈ e.authorized then .ok () else .error (.authFailure a)

/-- `__constructor`: store the three configuration singletons. -/
def __constructor (s : ContractState) (_e : Env) (admin : Address)
    (christmas_deadline : Nat) (naughty_list : List Address) :
    Except Abort (OpResult Unit) :=
  .ok { state := { s with inst :=
          { admin := some admin,
            christmasDeadline := some christmas_deadline,
            naughtyList := some naughty_list } },
        ret := (), events := [], bumps := [],
        accesses := [.inst, .inst, .inst] }

/-- `set_christmas_deadline`: admin-only overwrite of the deadline. -/
def set_christmas_deadline (s : ContractState) (e : Env)
    (christmas_deadline : Nat) : Except Abort (OpResult Unit) :=
  match s.inst.admin with
  | none => .error .missingAdmin
  | some admin =>
    match require_auth e admin with
    | .error a => .error a
    | .ok () =>
      .ok { state := { s with inst :=
              { s.inst with christmasDeadline := some christmas_deadline } },
            ret := (), events := [], bumps := [],
            accesses := [.inst, .inst] }

/-- `add_wish`: deadline gate, self-auth, denylist gate, then allocate the
next id, append the wish, persist, bump the wish entry's TTL and the
instance TTL, and emit `WishAddedEvent`. -/
def add_wish (s : ContractState) (e : Env) (user : Address) (text : String) :
    Except Abort (OpResult Nat) :=
  match ensure_not_christmas s e with
  | .error a => .error a
  | .ok () =>
    match require_auth e user with
    | .error a => .error a
    | .ok () =>
      match check_naughty_list s user with
      | .error a => .error a
      | .ok () =>
        let next_id := (s.nextId user).getD 1
        let current_id := next_id
        if next_id + 1 < U32_LIMIT then
          let s1 := { s with nextId := setFun s.nextId user (next_id + 1) }
          let wishes := (s1.wishes user).getD []
          let wishes2 := wishes ++
            [{ id := current_id, text := text,
               created_at_ledger := e.sequence, fulfilled := false }]
          let s2 := { s1 with wishes := setFun s1.wishes user wishes2 }
          .ok { state := s2, ret := current_id,
                events := [.wishAdded user current_id],
                bumps := [.persistent (.Wishes user), .inst],
                accesses := [.inst, .inst,
                  .persistent (.NextId user), .persistent (.NextId user),
                  .persistent (.Wishes user), .persistent (.Wishes user)] }
        else
          .error .overflow

/-- The scan loop of `mark_fulfilled`: set `fulfilled := true` on the
first entry whose id matches and stop; `none` when no entry matches. -/
def markFirst (wish_id : Nat) : List Wish → Option (List Wish)
  | [] => none
  | w :: rest =>
    if w.id = wish_id then
      some ({ w with fulfilled := true } :: rest)
    else
      (markFirst wish_id rest).map (fun l => w :: l)

/-- `mark_fulfilled`: admin-auth, scan for the wish, persist the updated
list, bump the wish entry's TTL, and emit `WishFulfilledEvent`; abort
with `WishNotFound` when the id is absent. -/
def mark_fulfilled (s : ContractState) (e : Env) (user : Address)
    (wish_id : Nat) : Except Abort (OpResult Unit) :=
  match s.inst.admin with
  | none => .error .missingAdmin
  | some admin =>
    match require_auth e admin with
    | .error a => .error a
    | .ok () =>
      let wishes := (s.wishes user).getD []
      match markFirst wish_id wishes with
      | none => .error (.contractErr .WishNotFound)
      | some wishes2 =>
        .ok { state := { s with wishes := setFun s.wishes user wishes2 },
              ret := (),
              events := [.wishFulfilled user wish_id],
              bumps := [.persistent (.Wishes user)],
              accesses := [.inst,
                .persistent (.Wishes user), .persistent (.Wishes user)] }

/-- `get_list`: public read of the user's list (empty if absent), bumping
the entry's TTL. -/
def get_list (s : ContractState) (_e : Env) (user : Address) :
    Except Abort (OpResult (List Wish)) :=
  let wishes := (s.wishes user).getD []
  .ok { state := s, ret := wishes, events := [],
        bumps := [.persistent (.Wishes user)],
        accesses := [.persistent (.Wishes user)] }

/-- The contract's entrypoints, as transition labels. -/
inductive Op where
  | construct (admin : Address) (deadline : Nat) (naughty : List Address)
  | setDeadline (deadline : Nat)
  | addWish (user : Address) (text : String)
  | markFulfilled (user : Address) (wish_id : Nat)
  | getList (user : Address)

/-- One host transaction: on success the new state is kept, on abort the
transaction rolls back and the state is unchanged. -/
def applyOp (s : ContractState) (e : Env) (o : Op) : ContractState :=
  match o with
  | .construct a d n =>
    match __constructor s e a d n with | .ok r => r.state | .error _ => s
  | .setDeadline d =>
    match set_christmas_deadline s e d with | .ok r => r.state | .error _ => s
  | .addWish u t =>
    match add_wish s e u t with | .ok r => r.state | .error _ => s
  | .markFulfilled u i =>
    match mark_fulfilled s e u i with | .ok r => r.state | .error _ => s
  | .getList u =>
    match get_list s e u with | .ok r => r.state | .error _ => s

/-- Run a sequence of transactions. -/
def run (s : ContractState) : List (Env × Op) → ContractState
  | [] => s
  | (e, o) :: tr => run (applyOp s e o) tr

/-- The pre-init state: no configuration singletons, no user data. -/
def initialState : ContractState :=
  { inst := { admin := none, christmasDeadline := none, naughtyList := none },
    wishes := fun _ => none,
    nextId := fun _ => none }

/-- `Except.isOk` as a plain definition, to state success of invocations. -/
def exceptOk {ε α : Type} : Except ε α → Bool
  | .ok _ => true
  | .error _ => false

/-- The ids returned by the successful `add_wish` calls of a given user
along a trace, in order. -/
def addReturns (user : Address) : ContractState → List (Env × Op) → List Nat
  | _, [] => []
  | s, (e, o) :: tr =>
    match o with
    | .addWish u t =>
      if u = user then
        match add_wish s e u t with
        | .ok r => r.ret :: addReturns user r.state tr
        | .error _ => addReturns user s tr
      else addReturns user (applyOp s e o) tr
    | _ => addReturns user (applyOp s e o) tr

/-- `consecutiveFrom k l`: the list `l` is `k, k+1, k+2, …`. -/
def consecutiveFrom : Nat → List Nat → Prop
  | _, [] => True
  | k, x :: xs => x = k ∧ consecutiveFrom (k + 1) xs

/-- One evolution step of a single wish: id, text and creation marker are
unchanged and `fulfilled` never reverts from `true`. -/
def wishStep (w w' : Wish) : Prop :=
  w'.id = w.id ∧ w'.text = w.text ∧
    w'.created_at_ledger = w.created_at_ledger ∧
    (w.fulfilled = true → w'.fulfilled = true)

/-- Evolution of a whole wish list: it only grows, keeps every existing
position's wish up to `wishStep`, and never reorders. -/
def listEvolves (old nw : List Wish) : Prop :=
  old.length ≤ nw.length ∧
    ∀ i, i < old.length →
      ∃ w w', old[i]? = some w ∧ nw[i]? = some w' ∧ wishStep w w'

/-- Does the operation write the `ChristmasDeadline` key? -/
def touchesDeadline : Op → Bool
  | .construct _ _ _ => true
  | .setDeadline _ => true
  | _ => false

/-- Sample wish used in concrete instantiations. -/
def sampleWish : Wish :=
  { id := 1, text := "bike", created_at_ledger := 5, fulfilled := false }

/-- Sample post-bootstrap state: admin `0`, deadline `100`, denylist `[3]`,
user `1` holding one wish with the counter already advanced to `2`. -/
def sState : ContractState :=
  { inst := { admin := some 0, christmasDeadline := some 100,
              naughtyList := some [3] },
    wishes := setFun (fun _ => none) 1 [sampleWish],
    nextId := setFun (fun _ => none) 1 2 }

/-- Environment where the admin (address `0`) signs, before the deadline. -/
def sEnvAdmin : Env := { timestamp := 10, sequence := 5, authorized := [0] }

/-- Environment where user `1` signs, before the deadline. -/
def sEnvUser : Env := { timestamp := 10, sequence := 6, authorized := [1] }

/-- Environment where denylisted user `3` signs, before the deadline. -/
def sEnvNaughty : Env := { timestamp := 10, sequence := 6, authorized := [3] }

/-- Environment where user `1` signs, at the deadline. -/
def sEnvLate : Env := { timestamp := 100, sequence := 7, authorized := [1] }

/-- Pre-init environment: time `0`, user `1` signs. -/
def preEnv : Env := { timestamp := 0, sequence := 3, authorized := [1] }

/-- Bootstrapped state for the deadline-permanence scenario: admin `0`,
deadline `10`, empty denylist, no user data. -/
def c5State : ContractState :=
  { inst := { admin := some 0, christmasDeadline := some 10,
              naughtyList := some [] },
    wishes := fun _ => none,
    nextId := fun _ => none }

/-- Environment at time `10` (the deadline instant), user `1` signing. -/
def c5EnvAt10 : Env := { timestamp := 10, sequence := 4, authorized := [1] }

/-- Environment at time `10`, admin `0` signing. -/
def c5EnvAdmin : Env := { timestamp := 10, sequence := 4, authorized := [0] }

/-- The state produced by a first `add_wish` of user `1` from the pre-init
state in `preEnv`. -/
def wAddState : ContractState :=
  { inst := { admin := none, christmasDeadline := none, naughtyList := none },
    wishes := setFun (fun _ => none) 1
      [{ id := 1, text := "bike", created_at_ledger := 3, fulfilled := false }],
    nextId := setFun (fun _ => none) 1 2 }

/-- The full result of `add_wish initialState preEnv 1 "bike"`. -/
def wAddRes : OpResult Nat :=
  { state := wAddState, ret := 1,
    events := [.wishAdded 1 1],
    bumps := [.persistent (.Wishes 1), .inst],
    accesses := [.inst, .inst,
      .persistent (.NextId 1), .persistent (.NextId 1),
      .persistent (.Wishes 1), .persistent (.Wishes 1)] }

/-- The full result of `mark_fulfilled sState sEnvAdmin 1 1`. -/
def wMarkRes : OpResult Unit :=
  { state :=
      { inst := sState.inst,
        wishes := setFun sState.wishes 1
          [{ id := 1, text := "bike", created_at_ledger := 5, fulfilled := true }],
        nextId := sState.nextId },
    ret := (), events := [.wishFulfilled 1 1],
    bumps := [.persistent (.Wishes 1)],
    accesses := [.inst, .persistent (.Wishes 1), .persistent (.Wishes 1)] }

/-- The full result of `get_list sState sEnvAdmin 1`. -/
def wGetRes : OpResult (List Wish) :=
  { state := sState, ret := [sampleWish], events := [],
    bumps := [.persistent (.Wishes 1)],
    accesses := [.persistent (.Wishes 1)] }

/-- The full result of `set_christmas_deadline sState sEnvAdmin 50`. -/
def wSetRes : OpResult Unit :=
  { state :=
      { inst :=
          { admin := some 0, christmasDeadline := some 50,
            naughtyList := some [3] },
        wishes := sState.wishes, nextId := sState.nextId },
    ret := (), events := [], bumps := [],
    accesses := [.inst, .inst] }

/-- The full result of `__constructor initialState preEnv 0 10 []`. -/
def wConsRes : OpResult Unit :=
  { state :=
      { inst :=
          { admin := some 0, christmasDeadline := some 10,
            naughtyList := some [] },
        wishes := initialState.wishes, nextId := initialState.nextId },
    ret := (), events := [], bumps := [],
    accesses := [.inst, .inst, .inst] }

/-! ## Helper lemmas -/

theorem setFun_same {α : Type} (f : Address → Option α) (a : Address) (v : α) :
    setFun f a v a = some v := by
  simp [setFun]

theorem setFun_ne {α : Type} (f : Address → Option α) (a b : Address) (v : α)
    (h : b ≠ a) : setFun f a v b = f b := by
  simp [setFun, h]

theorem add_wish_ok_elim {s : ContractState} {e : Env} {u : Address}
    {t : String} {r : OpResult Nat} (h : add_wish s e u t = .ok r) :
    r.ret = (s.nextId u).getD 1 ∧ r.ret + 1 < U32_LIMIT ∧
    r.state.inst = s.inst ∧
    r.state.nextId = setFun s.nextId u (r.ret + 1) ∧
    r.state.wishes = setFun s.wishes u (((s.wishes u).getD []) ++
      [{ id := r.ret, text := t, created_at_ledger := e.sequence,
         fulfilled := false }]) ∧
    r.events = [.wishAdded u r.ret] ∧
    r.bumps = [.persistent (.Wishes u), .inst] ∧
    r.accesses = [.inst, .inst,
      .persistent (.NextId u), .persistent (.NextId u),
      .persistent (.Wishes u), .persistent (.Wishes u)] := by
  unfold add_wish at h
  split at h
  · simp at h
  · split at h
    · simp at h
    · split at h
      · simp at h
      · dsimp only at h
        split at h
        · rename_i hlt
          injection h with h2
          subst h2
          exact ⟨rfl, hlt, rfl, rfl, rfl, rfl, rfl, rfl⟩
        · simp at h

theorem mark_fulfilled_ok_elim {s : ContractState} {e : Env} {u : Address}
    {i : Nat} {r : OpResult Unit} (h : mark_fulfilled s e u i = .ok r) :
    ∃ admin nw, s.inst.admin = some admin ∧ admin ∈ e.authorized ∧
      markFirst i ((s.wishes u).getD []) = some nw ∧
      r.state.inst = s.inst ∧ r.state.nextId = s.nextId ∧
      r.state.wishes = setFun s.wishes u nw ∧
      r.events = [.wishFulfilled u i] ∧
      r.bumps = [.persistent (.Wishes u)] ∧
      r.accesses = [.inst, .persistent (.Wishes u),
        .persistent (.Wishes u)] := by
  unfold mark_fulfilled at h
  split at h
  · simp at h
  · rename_i admin hadmin
    split at h
    · simp at h
    · rename_i heq
      dsimp only at h
      split at h
      · simp at h
      · rename_i nw hnw
        injection h with h2
        subst h2
        refine ⟨admin, nw, hadmin, ?_, hnw, rfl, rfl, rfl, rfl, rfl, rfl⟩
        unfold require_auth at heq
        split at heq
        · assumption
        · simp at heq

theorem set_christmas_deadline_ok_elim {s : ContractState} {e : Env}
    {d : Nat} {r : OpResult Unit}
    (h : set_christmas_deadline s e d = .ok r) :
    r.state.wishes = s.wishes ∧ r.state.nextId = s.nextId ∧
    r.state.inst.christmasDeadline = some d ∧
    r.state.inst.admin = s.inst.admin ∧
    r.state.inst.naughtyList = s.inst.naughtyList ∧
    r.bumps = [] ∧ r.accesses = [.inst, .inst] := by
  unfold set_christmas_deadline at h
  split at h
  · simp at h
  · split at h
    · simp at h
    · injection h with h2
      subst h2
      exact ⟨rfl, rfl, rfl, rfl, rfl, rfl, rfl⟩

theorem constructor_ok_elim {s : ContractState} {e : Env} {a : Address}
    {d : Nat} {n : List Address} {r : OpResult Unit}
    (h : __constructor s e a d n = .ok r) :
    r.state.wishes = s.wishes ∧ r.state.nextId = s.nextId ∧
    r.bumps = [] ∧ r.accesses = [.inst, .inst, .inst] := by
  unfold __constructor at h
  injection h with h2
  subst h2
  exact ⟨rfl, rfl, rfl, rfl⟩

theorem get_list_eq (s : ContractState) (e : Env) (u : Address) :
    get_list s e u =
      .ok { state := s, ret := (s.wishes u).getD [], events := [],
            bumps := [.persistent (.Wishes u)],
            accesses := [.persistent (.Wishes u)] } := rfl

theorem markFirst_eq_none (wish_id : Nat) (l : List Wish)
    (h : wish_id ∉ l.map Wish.id) : markFirst wish_id l = none := by
  induction l with
  | nil => rfl
  | cons w rest ih =>
    simp only [List.map_cons, List.mem_cons, not_or] at h
    unfold markFirst
    rw [if_neg (fun hw => h.1 hw.symm), ih h.2]
    rfl

/-! ## Claims -/

/-- C2: an `add_wish` attempted at a time at or past the configured
deadline (fallback if unset) aborts with `TooLateToChange`
(`DeadlineExceeded`), for every caller and every denylist status, and the
transaction leaves the state — counter and wish sequence included —
unchanged; an aborted invocation persists nothing and emits no event. -/
theorem add_wish_after_deadline_rejected (s : ContractState) (e : Env)
    (u : Address) (t : String)
    (h : (s.inst.christmasDeadline).getD FALLBACK_DEADLINE ≤ e.timestamp) :
    add_wish s e u t = .error (.contractErr .TooLateToChange) ∧
    applyOp s e (.addWish u t) = s := by
  have hadd : add_wish s e u t = .error (.contractErr .TooLateToChange) := by
    have h1 : ensure_not_christmas s e =
        .error (.contractErr .TooLateToChange) := by
      unfold ensure_not_christmas
      rw [if_pos h]
    unfold add_wish
    rw [h1]
  exact ⟨hadd, by simp [applyOp, hadd]⟩

/-- Witness for `add_wish_after_deadline_rejected` at a concrete state. -/
theorem add_wish_after_deadline_rejected_witness :
    add_wish sState sEnvLate 1 "bike" =
      .error (.contractErr .TooLateToChange) ∧
    applyOp sState sEnvLate (.addWish 1 "bike") = sState :=
  add_wish_after_deadline_rejected sState sEnvLate 1 "bike" (by decide)

/-- C3: with admin authorization, `mark_fulfilled` on a wish id absent
from the target user's stored sequence aborts with `WishNotFound` and the
transaction leaves the state byte-for-byte unchanged; an aborted
invocation persists nothing and emits no event. -/
theorem mark_fulfilled_missing_id_not_found (s : ContractState) (e : Env)
    (user a : Address) (wish_id : Nat)
    (hA : s.inst.admin = some a) (hauth : a ∈ e.authorized)
    (hid : wish_id ∉ ((s.wishes user).getD []).map Wish.id) :
    mark_fulfilled s e user wish_id = .error (.contractErr .WishNotFound) ∧
    applyOp s e (.markFulfilled user wish_id) = s := by
  have hm : mark_fulfilled s e user wish_id =
      .error (.contractErr .WishNotFound) := by
    simp [mark_fulfilled, hA, require_auth, hauth,
      markFirst_eq_none wish_id _ hid]
  exact ⟨hm, by simp [applyOp, hm]⟩

/-- Witness for `mark_fulfilled_missing_id_not_found`: fulfilling id 999
for a user holding only id 1. -/
theorem mark_fulfilled_missing_id_not_found_witness :
    mark_fulfilled sState sEnvAdmin 1 999 =
      .error (.contractErr .WishNotFound) ∧
    applyOp sState sEnvAdmin (.markFulfilled 1 999) = sState :=
  mark_fulfilled_missing_id_not_found sState sEnvAdmin 1 0 999
    (by decide) (by decide) (by decide)

theorem setFun_idem {α : Type} (f : Address → Option α) (a : Address) (v : α) :
    setFun (setFun f a v) a v = setFun f a v := by
  funext b
  by_cases hb : b = a <;> simp [setFun, hb]

theorem markFirst_spec (wish_id : Nat) (l : List Wish)
    (h : wish_id ∈ l.map Wish.id) :
    ∃ nw j, markFirst wish_id l = some nw ∧
      nw.length = l.length ∧ j < l.length ∧
      l[j]?.map Wish.id = some wish_id ∧
      (∀ k, k < j → l[k]?.map Wish.id ≠ some wish_id) ∧
      nw[j]? = l[j]?.map (fun w => { w with fulfilled := true }) ∧
      (∀ k, k ≠ j → nw[k]? = l[k]?) := by
  induction l with
  | nil => simp at h
  | cons w rest ih =>
    by_cases hw : w.id = wish_id
    · refine ⟨{ w with fulfilled := true } :: rest, 0, ?_, ?_, ?_, ?_, ?_, ?_, ?_⟩
      · unfold markFirst
        rw [if_pos hw]
      · simp
      · simp
      · simp [hw]
      · intro k hk
        exact absurd hk (Nat.not_lt_zero k)
      · simp
      · intro k hk
        cases k with
        | zero => exact absurd rfl hk
        | succ k2 => simp
    · have h2 : wish_id ∈ rest.map Wish.id := by
        simp only [List.map_cons, List.mem_cons] at h
        rcases h with h | h
        · exact absurd h.symm hw
        · exact h
      obtain ⟨nw, j, hmk, hlen, hj, hjid, hfirst, hupd, hother⟩ := ih h2
      refine ⟨w :: nw, j + 1, ?_, ?_, ?_, ?_, ?_, ?_, ?_⟩
      · unfold markFirst
        rw [if_neg hw, hmk]
        rfl
      · simp [hlen]
      · simpa using hj
      · simpa using hjid
      · intro k hk
        cases k with
        | zero => simp [hw]
        | succ k2 =>
          have hk2 : k2 < j := by omega
          simpa using hfirst k2 hk2
      · simpa using hupd
      · intro k hk
        cases k with
        | zero => simp
        | succ k2 => simpa using hother k2 (by omega)

theorem markFirst_idem (wish_id : Nat) (l nw : List Wish)
    (h : markFirst wish_id l = some nw) : markFirst wish_id nw = some nw := by
  induction l generalizing nw with
  | nil => simp [markFirst] at h
  | cons w rest ih =>
    unfold markFirst at h
    by_cases hw : w.id = wish_id
    · rw [if_pos hw] at h
      injection h with h2
      subst h2
      unfold markFirst
      dsimp only
      rw [if_pos hw]
    · rw [if_neg hw] at h
      cases hmk : markFirst wish_id rest with
      | none => rw [hmk] at h; simp at h
      | some nw2 =>
        rw [hmk] at h
        simp only [Option.map_some'] at h
        injection h with h2
        subst h2
        unfold markFirst
        rw [if_neg hw, ih nw2 hmk]
        rfl

/-- C7: a successful `mark_fulfilled` finds the first wish whose id
matches (scanning in insertion order), sets only its `fulfilled` flag,
leaves its other fields, every other wish, the sequence's length and
order, every other user's data, the counters and the configuration
unchanged, and a second identical call is idempotent. -/
theorem mark_fulfilled_first_match_frame (s : ContractState) (e : Env)
    (user a : Address) (wish_id : Nat) (old : List Wish)
    (hA : s.inst.admin = some a) (hauth : a ∈ e.authorized)
    (hold : (s.wishes user).getD [] = old)
    (hmem : wish_id ∈ old.map Wish.id) :
    ∃ r nw, mark_fulfilled s e user wish_id = .ok r ∧
      r.state.wishes user = some nw ∧
      (∀ u2, u2 ≠ user → r.state.wishes u2 = s.wishes u2) ∧
      r.state.nextId = s.nextId ∧ r.state.inst = s.inst ∧
      nw.length = old.length ∧
      (∃ j, j < old.length ∧
        old[j]?.map Wish.id = some wish_id ∧
        (∀ k, k < j → old[k]?.map Wish.id ≠ some wish_id) ∧
        nw[j]? = old[j]?.map (fun w => { w with fulfilled := true }) ∧
        (∀ k, k ≠ j → nw[k]? = old[k]?)) ∧
      (∃ r2, mark_fulfilled r.state e user wish_id = .ok r2 ∧
        r2.state = r.state) := by
  obtain ⟨nw, j, hmk, hlen, hj, hjid, hfirst, hupd, hother⟩ :=
    markFirst_spec wish_id old hmem
  have hra : require_auth e a = .ok () := by
    unfold require_auth
    rw [if_pos hauth]
  have hcall : mark_fulfilled s e user wish_id =
      .ok { state := { s with wishes := setFun s.wishes user nw }, ret := (),
            events := [.wishFulfilled user wish_id],
            bumps := [.persistent (.Wishes user)],
            accesses := [.inst, .persistent (.Wishes user),
              .persistent (.Wishes user)] } := by
    simp only [mark_fulfilled, hA, hra, hold, hmk]
  refine ⟨_, nw, hcall, setFun_same _ _ _,
    fun u2 hu2 => setFun_ne _ _ _ _ hu2, rfl, rfl, hlen,
    ⟨j, hj, hjid, hfirst, hupd, hother⟩, ?_⟩
  have hmk2 : markFirst wish_id nw = some nw := markFirst_idem wish_id old nw hmk
  have hold2 : ((setFun s.wishes user nw) user).getD [] = nw := by
    rw [setFun_same]
    rfl
  have hcall2 : mark_fulfilled { s with wishes := setFun s.wishes user nw }
      e user wish_id =
      .ok { state := { s with wishes := setFun (setFun s.wishes user nw) user nw },
            ret := (),
            events := [.wishFulfilled user wish_id],
            bumps := [.persistent (.Wishes user)],
            accesses := [.inst, .persistent (.Wishes user),
              .persistent (.Wishes user)] } := by
    simp only [mark_fulfilled, hA, hra, hold2, hmk2]
  refine ⟨_, hcall2, ?_⟩
  rw [setFun_idem]

/-- C10: for a user with no stored wish entry at all, `mark_fulfilled`
(admin-authorized) treats the missing entry as the empty sequence and
aborts with `WishNotFound`, persisting nothing; `get_list` for that user
returns the empty sequence without error, for every environment — no
authorization is consulted. -/
theorem missing_user_empty_semantics (s : ContractState) (e : Env)
    (user a : Address) (wish_id : Nat)
    (hnone : s.wishes user = none) (hA : s.inst.admin = some a)
    (hauth : a ∈ e.authorized) :
    mark_fulfilled s e user wish_id = .error (.contractErr .WishNotFound) ∧
    applyOp s e (.markFulfilled user wish_id) = s ∧
    (∀ e2 : Env, get_list s e2 user =
      .ok { state := s, ret := [], events := [],
            bumps := [.persistent (.Wishes user)],
            accesses := [.persistent (.Wishes user)] }) := by
  have hra : require_auth e a = .ok () := by
    unfold require_auth
    rw [if_pos hauth]
  have hm : mark_fulfilled s e user wish_id =
      .error (.contractErr .WishNotFound) := by
    simp only [mark_fulfilled, hA, hra, hnone, Option.getD_none, markFirst]
  refine ⟨hm, by simp [applyOp, hm], ?_⟩
  intro e2
  simp [get_list, hnone]

/-- Witness for `missing_user_empty_semantics`: user `2` has no entry in
`sState`. -/
theorem missing_user_empty_semantics_witness :
    mark_fulfilled sState sEnvAdmin 2 1 =
      .error (.contractErr .WishNotFound) ∧
    applyOp sState sEnvAdmin (.markFulfilled 2 1) = sState ∧
    (∀ e2 : Env, get_list sState e2 2 =
      .ok { state := sState, ret := [], events := [],
            bumps := [.persistent (.Wishes 2)],
            accesses := [.persistent (.Wishes 2)] }) :=
  missing_user_empty_semantics sState sEnvAdmin 2 0 1
    (by simp [sState, setFun]) (by decide) (by decide)

/-- C8: `add_wish` checks the deadline first, then self-authorization,
then the denylist: at or past the deadline it aborts with
`TooLateToChange` whatever the caller or denylist; before the deadline an
unauthorized caller aborts with the auth failure whatever the denylist;
before the deadline an authorized but denylisted caller aborts with
`YouAreNaughty` and the transaction mutates nothing. -/
theorem add_wish_check_order (s : ContractState) (e : Env) (u : Address)
    (t : String) :
    ((s.inst.christmasDeadline).getD FALLBACK_DEADLINE ≤ e.timestamp →
      add_wish s e u t = .error (.contractErr .TooLateToChange)) ∧
    (e.timestamp < (s.inst.christmasDeadline).getD FALLBACK_DEADLINE →
      u ∉ e.authorized → add_wish s e u t = .error (.authFailure u)) ∧
    (e.timestamp < (s.inst.christmasDeadline).getD FALLBACK_DEADLINE →
      u ∈ e.authorized → u ∈ (s.inst.naughtyList).getD [] →
      add_wish s e u t = .error (.contractErr .YouAreNaughty) ∧
      applyOp s e (.addWish u t) = s) := by
  refine ⟨?_, ?_, ?_⟩
  · intro h
    simp [add_wish, ensure_not_christmas, h]
  · intro h1 h2
    simp [add_wish, ensure_not_christmas, require_auth, Nat.not_le.mpr h1, h2]
  · intro h1 h2 h3
    have hcall : add_wish s e u t = .error (.contractErr .YouAreNaughty) := by
      simp [add_wish, ensure_not_christmas, require_auth, check_naughty_list,
        Nat.not_le.mpr h1, h2, h3]
    exact ⟨hcall, by simp [applyOp, hcall]⟩

/-- Witness for `add_wish_check_order`: the three branches at concrete
inputs — at the deadline, unauthorized before the deadline, denylisted
and authorized before the deadline. -/
theorem add_wish_check_order_witness :
    add_wish sState sEnvLate 3 "coal" =
      .error (.contractErr .TooLateToChange) ∧
    add_wish sState sEnvUser 2 "coal" = .error (.authFailure 2) ∧
    (add_wish sState sEnvNaughty 3 "coal" =
      .error (.contractErr .YouAreNaughty) ∧
     applyOp sState sEnvNaughty (.addWish 3 "coal") = sState) :=
  ⟨(add_wish_check_order sState sEnvLate 3 "coal").1 (by decide),
   (add_wish_check_order sState sEnvUser 2 "coal").2.1 (by decide) (by decide),
   (add_wish_check_order sState sEnvNaughty 3 "coal").2.2 (by decide)
     (by decide) (by decide)⟩

/-- C6 counterexample: the claim says no state-mutating endpoint is
reachable before initialization, but in the pre-init state (no
administrator, deadline or denylist stored) `add_wish` at ledger time `0`
by a self-authorized user succeeds and returns id `1`: the deadline falls
back to `1766620800` and the denylist falls back to empty. -/
theorem preinit_add_wish_succeeds_counterexample :
    exceptOk (add_wish initialState preEnv 1 "bike") = true ∧
    (add_wish initialState preEnv 1 "bike").map (fun r => r.ret) = .ok 1 := by
  constructor <;> rfl

/-- C6 amended: before initialization the admin-gated mutating endpoints
(`mark_fulfilled`, `set_christmas_deadline`) do fail — the admin
singleton is absent — and persist nothing, but `add_wish` remains
reachable: it succeeds (returning id `1`) whenever the time is before the
fallback deadline and the acting user authorizes, since deadline and
denylist default. -/
theorem preinit_admin_ops_fail_add_reachable (e : Env) (u : Address)
    (t : String) (d wish_id : Nat) :
    mark_fulfilled initialState e u wish_id = .error .missingAdmin ∧
    set_christmas_deadline initialState e d = .error .missingAdmin ∧
    applyOp initialState e (.markFulfilled u wish_id) = initialState ∧
    applyOp initialState e (.setDeadline d) = initialState ∧
    (e.timestamp < FALLBACK_DEADLINE → u ∈ e.authorized →
      (add_wish initialState e u t).map (fun r => r.ret) = .ok 1) := by
  refine ⟨rfl, rfl, rfl, rfl, ?_⟩
  intro h1 h2
  have hlt : (1 : Nat) + 1 < U32_LIMIT := by norm_num [U32_LIMIT]
  simp [add_wish, ensure_not_christmas, check_naughty_list, require_auth,
    initialState, Nat.not_le.mpr h1, h2, hlt, Except.map]

/-- Witness for `preinit_admin_ops_fail_add_reachable` at time `0` with
user `1` self-authorized. -/
theorem preinit_admin_ops_fail_add_reachable_witness :
    mark_fulfilled initialState preEnv 1 5 = .error .missingAdmin ∧
    set_christmas_deadline initialState preEnv 7 = .error .missingAdmin ∧
    applyOp initialState preEnv (.markFulfilled 1 5) = initialState ∧
    applyOp initialState preEnv (.setDeadline 7) = initialState ∧
    (add_wish initialState preEnv 1 "bike").map (fun r => r.ret) = .ok 1 := by
  have h := preinit_admin_ops_fail_add_reachable preEnv 1 "bike" 7 5
  exact ⟨h.1, h.2.1, h.2.2.1, h.2.2.2.1, h.2.2.2.2 (by decide) (by decide)⟩

theorem wishStep_refl (w : Wish) : wishStep w w :=
  ⟨rfl, rfl, rfl, fun h => h⟩

theorem wishStep_trans {a b c : Wish} (h1 : wishStep a b) (h2 : wishStep b c) :
    wishStep a c :=
  ⟨h2.1.trans h1.1, h2.2.1.trans h1.2.1, h2.2.2.1.trans h1.2.2.1,
    fun h => h2.2.2.2 (h1.2.2.2 h)⟩

theorem listEvolves_refl (l : List Wish) : listEvolves l l := by
  refine ⟨Nat.le_refl _, fun i hi => ?_⟩
  exact ⟨l[i], l[i], List.getElem?_eq_getElem hi,
    List.getElem?_eq_getElem hi, wishStep_refl _⟩

theorem listEvolves_trans {a b c : List Wish} (h1 : listEvolves a b)
    (h2 : listEvolves b c) : listEvolves a c := by
  refine ⟨h1.1.trans h2.1, fun i hi => ?_⟩
  obtain ⟨w, w', hw, hw', hs⟩ := h1.2 i hi
  obtain ⟨v, v', hv, hv', hs2⟩ := h2.2 i (lt_of_lt_of_le hi h1.1)
  rw [hw'] at hv
  injection hv with hvv
  subst hvv
  exact ⟨w, v', hw, hv', wishStep_trans hs hs2⟩

theorem listEvolves_append (l l2 : List Wish) : listEvolves l (l ++ l2) := by
  refine ⟨by simp, fun i hi => ?_⟩
  refine ⟨l[i], l[i], List.getElem?_eq_getElem hi, ?_, wishStep_refl _⟩
  rw [List.getElem?_append_left hi]
  exact List.getElem?_eq_getElem hi

theorem markFirst_listEvolves (wish_id : Nat) (l nw : List Wish)
    (h : markFirst wish_id l = some nw) : listEvolves l nw := by
  induction l generalizing nw with
  | nil => simp [markFirst] at h
  | cons w rest ih =>
    unfold markFirst at h
    by_cases hw : w.id = wish_id
    · rw [if_pos hw] at h
      injection h with h2
      subst h2
      refine ⟨by simp, fun i hi => ?_⟩
      cases i with
      | zero =>
        exact ⟨w, { w with fulfilled := true }, by simp, by simp,
          ⟨rfl, rfl, rfl, fun _ => rfl⟩⟩
      | succ i2 =>
        have hi2 : i2 < rest.length := by simpa using hi
        refine ⟨rest[i2], rest[i2], ?_, ?_, wishStep_refl _⟩ <;>
          simp [List.getElem?_eq_getElem hi2]
    · rw [if_neg hw] at h
      cases hmk : markFirst wish_id rest with
      | none => rw [hmk] at h; simp at h
      | some nw2 =>
        rw [hmk] at h
        simp only [Option.map_some'] at h
        injection h with h2
        subst h2
        have hev := ih nw2 hmk
        refine ⟨by simpa using Nat.succ_le_succ hev.1, fun i hi => ?_⟩
        cases i with
        | zero => exact ⟨w, w, by simp, by simp, wishStep_refl _⟩
        | succ i2 =>
          have hi2 : i2 < rest.length := by simpa using hi
          obtain ⟨x, x', hx, hx', hs⟩ := hev.2 i2 hi2
          refine ⟨x, x', ?_, ?_, hs⟩ <;> simp [hx, hx']

theorem wishes_applyOp_evolves (s : ContractState) (e : Env) (o : Op)
    (user : Address) :
    listEvolves ((s.wishes user).getD [])
      (((applyOp s e o).wishes user).getD []) := by
  cases o with
  | construct a d n => exact listEvolves_refl _
  | setDeadline d =>
    cases h : set_christmas_deadline s e d with
    | error a => simp only [applyOp, h]; exact listEvolves_refl _
    | ok r =>
      simp only [applyOp, h]
      rw [(set_christmas_deadline_ok_elim h).1]
      exact listEvolves_refl _
  | addWish u t =>
    cases h : add_wish s e u t with
    | error a => simp only [applyOp, h]; exact listEvolves_refl _
    | ok r =>
      obtain ⟨_, _, _, _, hw, _⟩ := add_wish_ok_elim h
      simp only [applyOp, h]
      rw [hw]
      by_cases hu : user = u
      · subst hu
        rw [setFun_same]
        exact listEvolves_append _ _
      · rw [setFun_ne _ _ _ _ hu]
        exact listEvolves_refl _
  | markFulfilled u i =>
    cases h : mark_fulfilled s e u i with
    | error a => simp only [applyOp, h]; exact listEvolves_refl _
    | ok r =>
      obtain ⟨admin, nw, _, _, hmk, _, _, hw, _⟩ := mark_fulfilled_ok_elim h
      simp only [applyOp, h]
      rw [hw]
      by_cases hu : user = u
      · subst hu
        rw [setFun_same]
        exact markFirst_listEvolves i _ _ hmk
      · rw [setFun_ne _ _ _ _ hu]
        exact listEvolves_refl _
  | getList u => exact listEvolves_refl _

/-- C4: every operation (and hence every sequence of operations) only
grows every user's stored wish sequence, never removes or reorders an
entry, keeps each stored wish's id, text and creation marker, and never
reverts a `fulfilled` flag from `true` to `false`. -/
theorem wish_lists_only_grow (s : ContractState) (user : Address) :
    (∀ e o, listEvolves ((s.wishes user).getD [])
      (((applyOp s e o).wishes user).getD [])) ∧
    (∀ tr, listEvolves ((s.wishes user).getD [])
      (((run s tr).wishes user).getD [])) := by
  refine ⟨fun e o => wishes_applyOp_evolves s e o user, fun tr => ?_⟩
  induction tr generalizing s with
  | nil => exact listEvolves_refl _
  | cons p tr ih =>
    obtain ⟨e, o⟩ := p
    exact listEvolves_trans (wishes_applyOp_evolves s e o user)
      (ih (applyOp s e o))

theorem consecutiveFrom_cons {k x : Nat} {xs : List Nat} :
    consecutiveFrom k (x :: xs) ↔ x = k ∧ consecutiveFrom (k + 1) xs :=
  Iff.rfl

theorem consecutiveFrom_lb (k : Nat) (l : List Nat)
    (h : consecutiveFrom k l) : ∀ x ∈ l, k ≤ x := by
  induction l generalizing k with
  | nil => intro x hx; simp at hx
  | cons y ys ih =>
    obtain ⟨hy, hrest⟩ := consecutiveFrom_cons.mp h
    intro x hx
    rcases List.mem_cons.mp hx with hx | hx
    · omega
    · have h2 := ih (k + 1) hrest x hx
      omega

theorem consecutiveFrom_nodup (k : Nat) (l : List Nat)
    (h : consecutiveFrom k l) : l.Nodup := by
  induction l generalizing k with
  | nil => exact List.nodup_nil
  | cons y ys ih =>
    obtain ⟨hy, hrest⟩ := consecutiveFrom_cons.mp h
    refine List.nodup_cons.mpr ⟨?_, ih (k + 1) hrest⟩
    intro hmem
    have h2 := consecutiveFrom_lb (k + 1) ys hrest y hmem
    omega

theorem nextId_applyOp_frame (s : ContractState) (e : Env) (o : Op)
    (user : Address) (h : ∀ t, o ≠ Op.addWish user t) :
    (applyOp s e o).nextId user = s.nextId user := by
  cases o with
  | construct a d n => rfl
  | setDeadline d =>
    cases hc : set_christmas_deadline s e d with
    | error a => simp only [applyOp, hc]
    | ok r =>
      simp only [applyOp, hc]
      rw [(set_christmas_deadline_ok_elim hc).2.1]
  | addWish u t =>
    have hu : u ≠ user := fun he => h t (by rw [he])
    cases hc : add_wish s e u t with
    | error a => simp only [applyOp, hc]
    | ok r =>
      simp only [applyOp, hc]
      obtain ⟨_, _, _, hnid, _⟩ := add_wish_ok_elim hc
      rw [hnid, setFun_ne _ _ _ _ (fun hh => hu hh.symm)]
  | markFulfilled u i =>
    cases hc : mark_fulfilled s e u i with
    | error a => simp only [applyOp, hc]
    | ok r =>
      simp only [applyOp, hc]
      obtain ⟨admin, nw, _, _, _, _, hnid, _⟩ := mark_fulfilled_ok_elim hc
      rw [hnid]
  | getList u => rfl

theorem addReturns_consecutive (user : Address) (tr : List (Env × Op)) :
    ∀ s : ContractState,
      consecutiveFrom ((s.nextId user).getD 1) (addReturns user s tr) := by
  induction tr with
  | nil => intro s; exact trivial
  | cons p tr ih =>
    intro s
    obtain ⟨e, o⟩ := p
    cases o with
    | construct a d n =>
      have h3 := ih (applyOp s e (.construct a d n))
      rw [nextId_applyOp_frame s e _ user (fun t2 h2 => Op.noConfusion h2)] at h3
      exact h3
    | setDeadline d =>
      have h3 := ih (applyOp s e (.setDeadline d))
      rw [nextId_applyOp_frame s e _ user (fun t2 h2 => Op.noConfusion h2)] at h3
      exact h3
    | markFulfilled u i =>
      have h3 := ih (applyOp s e (.markFulfilled u i))
      rw [nextId_applyOp_frame s e _ user (fun t2 h2 => Op.noConfusion h2)] at h3
      exact h3
    | getList u =>
      have h3 := ih (applyOp s e (.getList u))
      rw [nextId_applyOp_frame s e _ user (fun t2 h2 => Op.noConfusion h2)] at h3
      exact h3
    | addWish u t =>
      by_cases hu : u = user
      · subst hu
        cases hc : add_wish s e u t with
        | ok r =>
          obtain ⟨hret, _, _, hnid, _⟩ := add_wish_ok_elim hc
          have hred : addReturns u s ((e, Op.addWish u t) :: tr) =
              r.ret :: addReturns u r.state tr := by
            simp only [addReturns, if_pos, hc]
          rw [hred, hret]
          refine ⟨rfl, ?_⟩
          have h2 : (r.state.nextId u).getD 1 = (s.nextId u).getD 1 + 1 := by
            rw [hnid, setFun_same, hret]
            rfl
          have h3 := ih r.state
          rw [h2] at h3
          exact h3
        | error a =>
          have hred : addReturns u s ((e, Op.addWish u t) :: tr) =
              addReturns u s tr := by
            simp only [addReturns, if_pos, hc]
          rw [hred]
          exact ih s
      · have hne : ∀ t2, Op.addWish u t ≠ Op.addWish user t2 := by
          intro t2 hcon
          injection hcon with hcon1 hcon2
          exact hu hcon1
        have hred : addReturns user s ((e, Op.addWish u t) :: tr) =
            addReturns user (applyOp s e (.addWish u t)) tr := by
          simp only [addReturns, if_neg hu]
        rw [hred]
        have h3 := ih (applyOp s e (.addWish u t))
        rw [nextId_applyOp_frame s e _ user hne] at h3
        exact h3

/-- C1: along every trace of operations starting from the fresh contract,
the ids returned by a given user's successful `add_wish` calls are
exactly `1, 2, 3, …` — they start at `1`, increase by exactly `1` with
each successful addition, and are never repeated, whatever other
operations (by this or other users, or the admin) are interleaved. -/
theorem add_wish_ids_consecutive (user : Address) (tr : List (Env × Op)) :
    consecutiveFrom 1 (addReturns user initialState tr) ∧
    (addReturns user initialState tr).Nodup := by
  have h := addReturns_consecutive user tr initialState
  have h1 : (initialState.nextId user).getD 1 = 1 := rfl
  rw [h1] at h
  exact ⟨h, consecutiveFrom_nodup 1 _ h⟩

theorem deadline_run_frame (s : ContractState) (tr : List (Env × Op))
    (h : ∀ p ∈ tr, touchesDeadline p.2 = false) :
    (run s tr).inst.christmasDeadline = s.inst.christmasDeadline := by
  induction tr generalizing s with
  | nil => rfl
  | cons p tr ih =>
    obtain ⟨e, o⟩ := p
    have ho : touchesDeadline o = false := h (e, o) (List.mem_cons_self _ _)
    have hstep : (applyOp s e o).inst.christmasDeadline =
        s.inst.christmasDeadline := by
      cases o with
      | construct a d n => simp [touchesDeadline] at ho
      | setDeadline d => simp [touchesDeadline] at ho
      | addWish u2 t2 =>
        cases hc : add_wish s e u2 t2 with
        | error a => simp only [applyOp, hc]
        | ok r =>
          simp only [applyOp, hc]
          rw [(add_wish_ok_elim hc).2.2.1]
      | markFulfilled u2 i2 =>
        cases hc : mark_fulfilled s e u2 i2 with
        | error a => simp only [applyOp, hc]
        | ok r =>
          simp only [applyOp, hc]
          obtain ⟨admin, nw, _, _, _, hinst, _⟩ := mark_fulfilled_ok_elim hc
          rw [hinst]
      | getList u2 => rfl
    have h3 := ih (applyOp s e o) (fun p hp => h p (List.mem_cons_of_mem _ hp))
    rw [hstep] at h3
    exact h3

/-- C5 counterexample: rejection after the deadline instant is not
permanent.  With deadline `10` reached at time `10`, `add_wish` is
rejected; but after the administrator calls the deadline-update
entrypoint with the later deadline `100`, an `add_wish` at the very same
(hence "later or equal") time `10` succeeds. -/
theorem deadline_not_permanent_counterexample :
    add_wish c5State c5EnvAt10 1 "bike" =
      .error (.contractErr .TooLateToChange) ∧
    exceptOk (add_wish (applyOp c5State c5EnvAdmin (.setDeadline 100))
      c5EnvAt10 1 "bike") = true := by
  constructor <;> rfl

/-- C5 amended: once the current time has reached the stored deadline,
`add_wish` is rejected with `TooLateToChange` at every later-or-equal
time in every state reachable by operations that do not write the
deadline key — i.e. rejection is permanent unless the administrator (or a
re-run constructor) later moves the deadline past the current time. -/
theorem deadline_rejection_stable_without_deadline_write
    (s : ContractState) (tr : List (Env × Op)) (e e2 : Env) (u : Address)
    (t : String)
    (hpassed : (s.inst.christmasDeadline).getD FALLBACK_DEADLINE ≤ e.timestamp)
    (htr : ∀ p ∈ tr, touchesDeadline p.2 = false)
    (hmono : e.timestamp ≤ e2.timestamp) :
    add_wish (run s tr) e2 u t = .error (.contractErr .TooLateToChange) ∧
    applyOp (run s tr) e2 (.addWish u t) = run s tr := by
  have hd := deadline_run_frame s tr htr
  have hp2 : ((run s tr).inst.christmasDeadline).getD FALLBACK_DEADLINE ≤
      e2.timestamp := by
    rw [hd]
    omega
  have hadd : add_wish (run s tr) e2 u t =
      .error (.contractErr .TooLateToChange) := by
    simp [add_wish, ensure_not_christmas, hp2]
  exact ⟨hadd, by simp [applyOp, hadd]⟩

/-- Witness for `deadline_rejection_stable_without_deadline_write`: after
the deadline instant and an interleaved read, `add_wish` still fails. -/
theorem deadline_rejection_stable_without_deadline_write_witness :
    add_wish (run c5State [(c5EnvAdmin, Op.getList 1)]) c5EnvAt10 1 "bike" =
      .error (.contractErr .TooLateToChange) ∧
    applyOp (run c5State [(c5EnvAdmin, Op.getList 1)]) c5EnvAt10
      (.addWish 1 "bike") = run c5State [(c5EnvAdmin, Op.getList 1)] :=
  deadline_rejection_stable_without_deadline_write c5State
    [(c5EnvAdmin, Op.getList 1)] c5EnvAt10 c5EnvAt10 1 "bike"
    (by decide) (by decide) (by decide)

/-- C9 counterexample: not every storage entry read or written by a
successful invocation gets a TTL extension in that invocation.  A
successful `add_wish` reads and writes the user's `NextId` entry but
issues no bump for it; a successful `mark_fulfilled` reads the instance
(configuration) storage but issues no instance bump; a successful
`set_christmas_deadline` reads and writes instance storage and issues no
bump at all. -/
theorem ttl_not_bumped_counterexample :
    (add_wish sState sEnvUser 1 "scooter").map
      (fun r => (decide (TtlKey.persistent (.NextId 1) ∈ r.accesses),
                 decide (TtlKey.persistent (.NextId 1) ∈ r.bumps))) =
      .ok (true, false) ∧
    (mark_fulfilled sState sEnvAdmin 1 1).map
      (fun r => (decide (TtlKey.inst ∈ r.accesses),
                 decide (TtlKey.inst ∈ r.bumps))) = .ok (true, false) ∧
    (set_christmas_deadline sState sEnvAdmin 50).map
      (fun r => (decide (TtlKey.inst ∈ r.accesses), r.bumps)) =
      .ok (true, []) := by
  refine ⟨rfl, rfl, rfl⟩

/-- C9 amended: each successful operation extends the TTL of exactly
these entries: `add_wish` the user's wish entry and the instance storage
(but not the `NextId` entry it reads and writes); `mark_fulfilled` and
`get_list` the user's wish entry only (not the instance storage
`mark_fulfilled` reads); `set_christmas_deadline` and the constructor
nothing. -/
theorem ttl_bumps_exact (s : ContractState) (e : Env) (u a : Address)
    (t : String) (i d : Nat) (n : List Address) :
    (∀ r, add_wish s e u t = .ok r →
      r.accesses = [.inst, .inst,
        .persistent (.NextId u), .persistent (.NextId u),
        .persistent (.Wishes u), .persistent (.Wishes u)] ∧
      r.bumps = [.persistent (.Wishes u), .inst]) ∧
    (∀ r, mark_fulfilled s e u i = .ok r →
      r.accesses = [.inst, .persistent (.Wishes u),
        .persistent (.Wishes u)] ∧
      r.bumps = [.persistent (.Wishes u)]) ∧
    (∀ r, get_list s e u = .ok r →
      r.accesses = [.persistent (.Wishes u)] ∧
      r.bumps = [.persistent (.Wishes u)]) ∧
    (∀ r, set_christmas_deadline s e d = .ok r →
      r.accesses = [.inst, .inst] ∧ r.bumps = []) ∧
    (∀ r, __constructor s e a d n = .ok r →
      r.accesses = [.inst, .inst, .inst] ∧ r.bumps = []) := by
  refine ⟨?_, ?_, ?_, ?_, ?_⟩
  · intro r h
    obtain ⟨_, _, _, _, _, _, hb, hacc⟩ := add_wish_ok_elim h
    exact ⟨hacc, hb⟩
  · intro r h
    obtain ⟨admin, nw, _, _, _, _, _, _, _, hb, hacc⟩ :=
      mark_fulfilled_ok_elim h
    exact ⟨hacc, hb⟩
  · intro r h
    rw [get_list_eq] at h
    injection h with h2
    subst h2
    exact ⟨rfl, rfl⟩
  · intro r h
    have h2 := set_christmas_deadline_ok_elim h
    exact ⟨h2.2.2.2.2.2.2, h2.2.2.2.2.2.1⟩
  · intro r h
    have h2 := constructor_ok_elim h
    exact ⟨h2.2.2.2, h2.2.2.1⟩

/-- Witness for `ttl_bumps_exact`: the five entrypoints at concrete
successful invocations. -/
theorem ttl_bumps_exact_witness :
    (wAddRes.accesses = [.inst, .inst,
        .persistent (.NextId 1), .persistent (.NextId 1),
        .persistent (.Wishes 1), .persistent (.Wishes 1)] ∧
      wAddRes.bumps = [.persistent (.Wishes 1), .inst]) ∧
    (wMarkRes.accesses = [.inst, .persistent (.Wishes 1),
        .persistent (.Wishes 1)] ∧
      wMarkRes.bumps = [.persistent (.Wishes 1)]) ∧
    (wGetRes.accesses = [.persistent (.Wishes 1)] ∧
      wGetRes.bumps = [.persistent (.Wishes 1)]) ∧
    (wSetRes.accesses = [.inst, .inst] ∧ wSetRes.bumps = []) ∧
    (wConsRes.accesses = [.inst, .inst, .inst] ∧ wConsRes.bumps = []) :=
  ⟨(ttl_bumps_exact initialState preEnv 1 0 "bike" 1 10 []).1 wAddRes rfl,
   (ttl_bumps_exact sState sEnvAdmin 1 0 "x" 1 50 []).2.1 wMarkRes rfl,
   (ttl_bumps_exact sState sEnvAdmin 1 0 "x" 1 50 []).2.2.1 wGetRes rfl,
   (ttl_bumps_exact sState sEnvAdmin 1 0 "x" 1 50 []).2.2.2.1 wSetRes rfl,
   (ttl_bumps_exact initialState preEnv 1 0 "bike" 1 10 []).2.2.2.2
     wConsRes rfl⟩

/-- Witness for `mark_fulfilled_first_match_frame`: fulfilling wish `1`
of user `1` in the sample bootstrapped state. -/
theorem mark_fulfilled_first_match_frame_witness :
    ∃ r nw, mark_fulfilled sState sEnvAdmin 1 1 = .ok r ∧
      r.state.wishes 1 = some nw ∧
      (∀ u2, u2 ≠ 1 → r.state.wishes u2 = sState.wishes u2) ∧
      r.state.nextId = sState.nextId ∧ r.state.inst = sState.inst ∧
      nw.length = ([sampleWish] : List Wish).length ∧
      (∃ j, j < ([sampleWish] : List Wish).length ∧
        ([sampleWish] : List Wish)[j]?.map Wish.id = some 1 ∧
        (∀ k, k < j →
          ([sampleWish] : List Wish)[k]?.map Wish.id ≠ some 1) ∧
        nw[j]? = ([sampleWish] : List Wish)[j]?.map
          (fun w => { w with fulfilled := true }) ∧
        (∀ k, k ≠ j → nw[k]? = ([sampleWish] : List Wish)[k]?)) ∧
      (∃ r2, mark_fulfilled r.state sEnvAdmin 1 1 = .ok r2 ∧
        r2.state = r.state) :=
  mark_fulfilled_first_match_frame sState sEnvAdmin 1 0 1 [sampleWish]
    (by decide) (by decide) (by decide) (by decide)
